import Mathlib

/-!
Verification of the DNA sequence-analysis tool.

Shallow embedding of the core text-processing routines of
`src/unnamed/part_001` (the richest `BioinformaticsTool` component) and of
the service-side variant `src/supabase/functions/blast-search/index.ts`.
Strings are modelled as `List Char`; JS numbers, where they carry exact
decimal data (hydrophobicity scale, GC percentage), are idealised as `ℚ`.
All definitions are executable and total; totality of a definition is the
formal counterpart of a contract clause of the form "never throws".
-/

/-- The set of characters matched by the JS regex class `\s`
(whitespace, as used in `raw.replace(/[\s0-9]/g, '')` and `split(/\s+/)`). -/
def isJsSpace (c : Char) : Bool :=
  c = ' ' || c = '\t' || c = '\n' || c = '\r' || c = '\u000B' || c = '\u000C'
    || c = '\u00A0' || c = '\u1680'
    || (decide ('\u2000' ≤ c) && decide (c ≤ '\u200A'))
    || c = '\u2028' || c = '\u2029' || c = '\u202F' || c = '\u205F'
    || c = '\u3000' || c = '\uFEFF'

/-- The characters matched by the JS regex class `[0-9]`. -/
def jsIsDigit (c : Char) : Bool :=
  decide ('0' ≤ c) && decide (c ≤ '9')

/-- A valid DNA residue, i.e. a character of the class `[ATGC]`. -/
def isBase (c : Char) : Bool :=
  c = 'A' || c = 'T' || c = 'G' || c = 'C'

/-- Embedding of JS `String.prototype.toUpperCase` restricted to the ASCII
letters (the only case mapping exercised by this code base). -/
def jsToUpper (c : Char) : Char :=
  match c with
  | 'a' => 'A' | 'b' => 'B' | 'c' => 'C' | 'd' => 'D' | 'e' => 'E'
  | 'f' => 'F' | 'g' => 'G' | 'h' => 'H' | 'i' => 'I' | 'j' => 'J'
  | 'k' => 'K' | 'l' => 'L' | 'm' => 'M' | 'n' => 'N' | 'o' => 'O'
  | 'p' => 'P' | 'q' => 'Q' | 'r' => 'R' | 's' => 'S' | 't' => 'T'
  | 'u' => 'U' | 'v' => 'V' | 'w' => 'W' | 'x' => 'X' | 'y' => 'Y'
  | 'z' => 'Z'
  | c => c

/-- The 26 ASCII capital letters, the possible proper images of `jsToUpper`. -/
def ucLetters : List Char :=
  ['A', 'B', 'C', 'D', 'E', 'F', 'G', 'H', 'I', 'J', 'K', 'L', 'M',
   'N', 'O', 'P', 'Q', 'R', 'S', 'T', 'U', 'V', 'W', 'X', 'Y', 'Z']

/-- Embedding of JS `String.prototype.split` with a one-character separator. -/
def splitOnChar (sep : Char) : List Char → List (List Char)
  | [] => [[]]
  | x :: xs =>
    let r := splitOnChar sep xs
    if x = sep then [] :: r
    else
      match r with
      | [] => [[x]]
      | y :: ys => (x :: y) :: ys

/-- Embedding of JS `String.prototype.trim` (strip `\s` from both ends). -/
def jsTrim (l : List Char) : List Char :=
  ((l.dropWhile isJsSpace).reverse.dropWhile isJsSpace).reverse

/-- Result record of `cleanAndValidate` (interface `ValidationResult`). -/
structure ValidationResult where
  sequence : List Char
  isValid : Bool
  invalidChars : List Char
deriving DecidableEq

/-- Embedding of `cleanAndValidate` (part_001 lines 106-115): drop the first
line when the trimmed text starts with the FASTA marker, remove whitespace
and digits, upper-case, and report residues outside `[ATGC]`. -/
def cleanAndValidate (raw : List Char) : ValidationResult :=
  let afterHeader :=
    if (jsTrim raw).head? = some '>' then ((splitOnChar '\n' raw).drop 1).flatten
    else raw
  let cleaned :=
    (afterHeader.filter (fun c => !(isJsSpace c || jsIsDigit c))).map jsToUpper
  { sequence := cleaned
    isValid := cleaned.all isBase
    invalidChars := cleaned.filter (fun c => !isBase c) }

/-! ## Substring search (JS `String.prototype.indexOf`) -/

/-- `matchAtB s m i` holds when the pattern `m` occurs in `s` starting at
0-based index `i` (a full in-bounds occurrence, as JS `indexOf` requires). -/
def matchAtB (s m : List Char) (i : Nat) : Bool :=
  decide (i + m.length ≤ s.length) && ((s.drop i).take m.length == m)

/-- Fuel-driven linear scan for the first index `≥ start` satisfying `p`,
examining `fuel` consecutive candidates. -/
def findFirstFrom (p : Nat → Bool) : Nat → Nat → Option Nat
  | _, 0 => none
  | start, fuel + 1 =>
    if p start then some start else findFirstFrom p (start + 1) fuel

/-- Embedding of JS `s.indexOf(m, start)`: first full occurrence of `m` in
`s` at an index `≥ start`, or `none` (JS `-1`). -/
def jsIndexOfFrom (s m : List Char) (start : Nat) : Option Nat :=
  findFirstFrom (fun i => matchAtB s m i) start (s.length + 1 - start)

/-! ## Translation (part_001 lines 193-272) -/

/-- The fixed 64-entry genetic-code table `geneticCode`; `'*'` marks a stop
codon. Triplets outside the table (invalid residues) give `none`
(JS `undefined`). -/
def geneticCode (codon : List Char) : Option Char :=
  match codon with
  | ['T', 'T', 'T'] => some 'F' | ['T', 'T', 'C'] => some 'F'
  | ['T', 'T', 'A'] => some 'L' | ['T', 'T', 'G'] => some 'L'
  | ['T', 'C', 'T'] => some 'S' | ['T', 'C', 'C'] => some 'S'
  | ['T', 'C', 'A'] => some 'S' | ['T', 'C', 'G'] => some 'S'
  | ['T', 'A', 'T'] => some 'Y' | ['T', 'A', 'C'] => some 'Y'
  | ['T', 'A', 'A'] => some '*' | ['T', 'A', 'G'] => some '*'
  | ['T', 'G', 'T'] => some 'C' | ['T', 'G', 'C'] => some 'C'
  | ['T', 'G', 'A'] => some '*' | ['T', 'G', 'G'] => some 'W'
  | ['C', 'T', 'T'] => some 'L' | ['C', 'T', 'C'] => some 'L'
  | ['C', 'T', 'A'] => some 'L' | ['C', 'T', 'G'] => some 'L'
  | ['C', 'C', 'T'] => some 'P' | ['C', 'C', 'C'] => some 'P'
  | ['C', 'C', 'A'] => some 'P' | ['C', 'C', 'G'] => some 'P'
  | ['C', 'A', 'T'] => some 'H' | ['C', 'A', 'C'] => some 'H'
  | ['C', 'A', 'A'] => some 'Q' | ['C', 'A', 'G'] => some 'Q'
  | ['C', 'G', 'T'] => some 'R' | ['C', 'G', 'C'] => some 'R'
  | ['C', 'G', 'A'] => some 'R' | ['C', 'G', 'G'] => some 'R'
  | ['A', 'T', 'T'] => some 'I' | ['A', 'T', 'C'] => some 'I'
  | ['A', 'T', 'A'] => some 'I' | ['A', 'T', 'G'] => some 'M'
  | ['A', 'C', 'T'] => some 'T' | ['A', 'C', 'C'] => some 'T'
  | ['A', 'C', 'A'] => some 'T' | ['A', 'C', 'G'] => some 'T'
  | ['A', 'A', 'T'] => some 'N' | ['A', 'A', 'C'] => some 'N'
  | ['A', 'A', 'A'] => some 'K' | ['A', 'A', 'G'] => some 'K'
  | ['A', 'G', 'T'] => some 'S' | ['A', 'G', 'C'] => some 'S'
  | ['A', 'G', 'A'] => some 'R' | ['A', 'G', 'G'] => some 'R'
  | ['G', 'T', 'T'] => some 'V' | ['G', 'T', 'C'] => some 'V'
  | ['G', 'T', 'A'] => some 'V' | ['G', 'T', 'G'] => some 'V'
  | ['G', 'C', 'T'] => some 'A' | ['G', 'C', 'C'] => some 'A'
  | ['G', 'C', 'A'] => some 'A' | ['G', 'C', 'G'] => some 'A'
  | ['G', 'A', 'T'] => some 'D' | ['G', 'A', 'C'] => some 'D'
  | ['G', 'A', 'A'] => some 'E' | ['G', 'A', 'G'] => some 'E'
  | ['G', 'G', 'T'] => some 'G' | ['G', 'G', 'C'] => some 'G'
  | ['G', 'G', 'A'] => some 'G' | ['G', 'G', 'G'] => some 'G'
  | _ => none

/-- The codon-consuming loop of `translateToProtein`: non-overlapping
triplets from the coding sequence; a trailing partial triplet is discarded,
a stop codon ends the loop with the stop flag set. A triplet with invalid
residues looks up to JS `undefined`, which string concatenation renders as
the literal text `"undefined"` (JS coercion, modelled faithfully). -/
def translateLoop : List Char → List Char × Bool
  | c1 :: c2 :: c3 :: rest =>
    match geneticCode [c1, c2, c3] with
    | some aa =>
      if aa = '*' then ([], true)
      else
        let r := translateLoop rest
        (aa :: r.1, r.2)
    | none =>
      let r := translateLoop rest
      ("undefined".toList ++ r.1, r.2)
  | _ => ([], false)

/-- Result of a successful translation (protein, stop-codon-found flag,
0-based start index of the first `ATG`). -/
structure TranslationResult where
  protein : List Char
  stopCodonFound : Bool
  startIndex : Nat
deriving DecidableEq

/-- Embedding of `translateToProtein` (part_001 lines 193-272): find the
first `ATG`, then translate triplets until a stop codon or sequence end.
`none` is the "No start codon (ATG) found." failure path. -/
def translateToProtein (sequence : List Char) : Option TranslationResult :=
  match jsIndexOfFrom sequence ("ATG".toList) 0 with
  | none => none
  | some startIndex =>
    let coding := sequence.drop startIndex
    let r := translateLoop coding
    some ⟨r.1, r.2, startIndex⟩

/-! ## Reverse complement (part_001 lines 165-191) -/

/-- The Watson-Crick pairing table `complement`; characters outside the
table look up to JS `undefined`, which `Array.prototype.join` drops. -/
def complement (c : Char) : Option Char :=
  match c with
  | 'A' => some 'T'
  | 'T' => some 'A'
  | 'G' => some 'C'
  | 'C' => some 'G'
  | _ => none

/-- Embedding of `generateReverseComplement` (part_001 lines 165-191):
reverse the sequence, then map each base to its complement. -/
def generateReverseComplement (s : List Char) : List Char :=
  s.reverse.filterMap complement

/-! ## Composition statistics (part_001 lines 117-134, 143-163) -/

/-- Embedding of `(sequence.match(/X/g) || []).length`: the number of
occurrences of base `b` in the cleaned sequence. -/
def countBase (s : List Char) (b : Char) : Nat :=
  s.count b

/-- Embedding of JS `x.toFixed(2)` (followed by `parseFloat`) on a
non-negative number, idealised over `ℚ`: round to 2 decimal places,
ties away from zero. -/
def jsToFixed2 (x : ℚ) : ℚ :=
  (⌊x * 100 + 1 / 2⌋ : ℤ) / 100

/-- The reported GC percentage: `((g + c) / length * 100).toFixed(2)`
(part_001 line 126 and line 150). -/
def gcPercent (s : List Char) : ℚ :=
  jsToFixed2 (((countBase s 'G' : ℚ) + (countBase s 'C' : ℚ)) / s.length * 100)

/-! ## Hydropathy plot (part_001 lines 274-356) -/

/-- The fixed Kyte-Doolittle hydrophobicity scale `kyteDoolittleScale`;
residues outside the table give `none` (JS `undefined`). -/
def kyteDoolittleScale (c : Char) : Option ℚ :=
  match c with
  | 'A' => some 1.8 | 'R' => some (-4.5) | 'N' => some (-3.5)
  | 'D' => some (-3.5) | 'C' => some 2.5
  | 'Q' => some (-3.5) | 'E' => some (-3.5) | 'G' => some (-0.4)
  | 'H' => some (-3.2) | 'I' => some 4.5
  | 'L' => some 3.8 | 'K' => some (-3.9) | 'M' => some 1.9
  | 'F' => some 2.8 | 'P' => some (-1.6)
  | 'S' => some (-0.8) | 'T' => some (-0.7) | 'W' => some (-0.9)
  | 'Y' => some (-1.3) | 'V' => some 4.2
  | _ => none

/-- The sliding-window stage of `generateHydropathyPlot` (part_001 lines
292-306), applied to the translated protein: `none` is the
"too short for hydropathy plot" failure (`protein.length < 9`); otherwise
one score per window start `i ∈ [0, length − 9]`, each the window sum of
scale values (`undefined` contributing 0, via `|| 0`) divided by 9. -/
def hydropathyScores (protein : List Char) : Option (List ℚ) :=
  if protein.length < 9 then none
  else
    some ((List.range (protein.length - 9 + 1)).map (fun i =>
      (((List.range 9).map
          (fun j => (kyteDoolittleScale (protein.getD (i + j) ' ')).getD 0)).sum) / 9))

/-! ## Motif scanner (part_001 lines 358-406) -/

/-- The `while (pos !== -1)` loop of `findMotifs` (part_001 lines 369-376):
record the 1-based position of each `indexOf` hit and restart the search one
position later. `fuel` bounds the iteration count; `s.length + 1`
iterations always suffice for a non-empty motif. -/
def findMotifLoop (s m : List Char) : Nat → Nat → List Nat
  | _, 0 => []
  | start, fuel + 1 =>
    match jsIndexOfFrom s m start with
    | none => []
    | some p => (p + 1) :: findMotifLoop s m (p + 1) fuel

/-- Embedding of the position-collection part of `findMotifs`: all 1-based
start positions of the motif, overlapping occurrences included. -/
def findMotifPositions (s m : List Char) : List Nat :=
  findMotifLoop s m 0 (s.length + 1)

/-! ## Guide-RNA (PAM) scanner (part_001 lines 408-466) -/

/-- A CRISPR guide candidate as assembled by `findGRNA`: 1-based protospacer
start position, the 20-base protospacer, and the 3-base PAM window. -/
structure GuideCandidate where
  pos : Nat
  seq : List Char
  pam : List Char
deriving DecidableEq

/-- Embedding of the scan loop of `findGRNA` (part_001 lines 413-423):
for `i` from 20 while `i < length − 2`, emit a candidate whenever
`s[i+1] = 'G'` and `s[i+2] = 'G'`. -/
def findGRNA (s : List Char) : List GuideCandidate :=
  (List.range s.length).filterMap (fun i =>
    if 20 ≤ i ∧ i + 2 < s.length ∧ s.getD (i + 1) ' ' = 'G' ∧ s.getD (i + 2) ' ' = 'G'
    then some ⟨i - 20 + 1, (s.drop (i - 20)).take 20, (s.drop i).take 3⟩
    else none)

/-! ## BLAST result parsing (part_001 lines 560-595) -/

/-- Worker for JS `split(/\s+/)`: `some acc` accumulates the current piece
(reversed); `none` means the scan is inside a whitespace run. -/
def splitWsGo : List Char → Option (List Char) → List (List Char)
  | [], some acc => [acc.reverse]
  | [], none => [[]]
  | c :: rest, some acc =>
    if isJsSpace c then acc.reverse :: splitWsGo rest none
    else splitWsGo rest (some (c :: acc))
  | c :: rest, none =>
    if isJsSpace c then splitWsGo rest none
    else splitWsGo rest (some [c])

/-- Embedding of JS `description.split(/\s+/)`: split on maximal whitespace
runs, keeping empty pieces at the ends. -/
def jsSplitWs (l : List Char) : List (List Char) :=
  splitWsGo l (some [])

/-- Case-insensitive literal-prefix test (the `/i` flag of the two
boilerplate-stripping regexes). -/
def ciPrefix (pat l : List Char) : Bool :=
  (l.take pat.length).map jsToUpper == pat.map jsToUpper

/-- The alternatives of the first stripping regex
`/\s+(str\.|strain|isolate|substr\.|subsp\.).*$/i`. -/
def quals1 : List (List Char) :=
  ["str.".toList, "strain".toList, "isolate".toList,
   "substr.".toList, "subsp.".toList]

/-- The alternatives of the second stripping regex
`/,?\s*(complete genome|genome|sequence|partial|chromosome|scaffold|plasmid).*$/i`. -/
def quals2 : List (List Char) :=
  ["complete genome".toList, "genome".toList, "sequence".toList,
   "partial".toList, "chromosome".toList, "scaffold".toList,
   "plasmid".toList]

/-- Whether the first stripping regex can match starting at index `j`:
at least one whitespace character, then (because every alternative starts
with a letter, the greedy `\s+` must stop exactly at the end of the
whitespace run) one of the `quals1` literals, case-insensitively. -/
def r1MatchAt (s : List Char) (j : Nat) : Bool :=
  match s.drop j with
  | [] => false
  | c :: rest =>
    isJsSpace c && quals1.any (fun q => ciPrefix q (rest.dropWhile isJsSpace))

/-- Whether the second stripping regex can match starting at index `j`:
an optional comma, any whitespace, then one of the `quals2` literals,
case-insensitively. -/
def r2MatchAt (s : List Char) (j : Nat) : Bool :=
  let t1 := s.drop j
  let t2 := if t1.head? = some ',' then t1.tail else t1
  quals2.any (fun q => ciPrefix q (t2.dropWhile isJsSpace))

/-- JS `name.replace(regex1, '')`: the match extends to the end of the
string (`.*$`, no newline in a first line), so replacing it truncates at
the leftmost match start. -/
def strip1 (s : List Char) : List Char :=
  match (List.range s.length).find? (fun j => r1MatchAt s j) with
  | some j => s.take j
  | none => s

/-- JS `name.replace(regex2, '')`, same truncation-at-leftmost-match shape
as `strip1`. -/
def strip2 (s : List Char) : List Char :=
  match (List.range s.length).find? (fun j => r2MatchAt s j) with
  | some j => s.take j
  | none => s

/-- Display-name derivation of `renderBlastResults` (part_001 lines
576-583): first two words of the description, boilerplate suffixes
stripped, falling back to the accession id when blank. -/
def deriveName (id description : List Char) : List Char :=
  let words := jsSplitWs description
  let name0 :=
    if 2 ≤ words.length then words.getD 0 [] ++ ' ' :: words.getD 1 []
    else description
  let name1 := strip2 (strip1 name0)
  if jsTrim name1 = [] then id else name1

/-- One parsed hit of the flat-text BLAST report. -/
structure BlastHit where
  id : List Char
  name : List Char
  description : List Char
deriving DecidableEq

/-- Per-chunk extraction of `renderBlastResults` (part_001 lines 566-583):
first line of the chunk, trimmed; accession id up to the first space
(no space: chunk skipped); description after it; display name derived. -/
def parseChunk (chunk : List Char) : Option BlastHit :=
  let firstLine := jsTrim ((splitOnChar '\n' chunk).getD 0 [])
  match jsIndexOfFrom firstLine [' '] 0 with
  | none => none
  | some spaceIndex =>
    let id := firstLine.take spaceIndex
    let description := jsTrim (firstLine.drop (spaceIndex + 1))
    some ⟨id, deriveName id description, description⟩

/-- The accumulation loop of `renderBlastResults` (part_001 lines 566-589):
stop as soon as 3 hits are collected, skip chunks without a space in the
first line, and keep a hit only when its (non-blank) derived name is new;
the pushed record carries the trimmed name. -/
def renderLoop : List (List Char) → List (List Char) → List BlastHit → List BlastHit
  | [], _, acc => acc.reverse
  | chunk :: rest, seen, acc =>
    if 3 ≤ acc.length then acc.reverse
    else
      match parseChunk chunk with
      | none => renderLoop rest seen acc
      | some h =>
        if h.name ≠ [] ∧ ¬ seen.contains h.name then
          renderLoop rest (h.name :: seen) ({ h with name := jsTrim h.name } :: acc)
        else renderLoop rest seen acc

/-- Embedding of the parsing stage of `renderBlastResults`: split the
report on the `>` hit delimiter, drop the text before the first `>`
(the loop starts at chunk index 1), and run the accumulation loop. -/
def parseBlastResults (resultText : List Char) : List BlastHit :=
  renderLoop ((splitOnChar '>' resultText).drop 1) [] []

/-- All hits of the report, in encounter order, before deduplication. -/
def allHits (resultText : List Char) : List BlastHit :=
  ((splitOnChar '>' resultText).drop 1).filterMap parseChunk

/-- Modelled from the spec: "Deduplicate by derived name, keep only the
first 3 in encounter order" — the deduplication pass alone, keeping every
first occurrence of a (non-blank) derived name; the cap is applied by
`List.take 3` at the use site. -/
def dedupeByName : List BlastHit → List (List Char) → List BlastHit
  | [], _ => []
  | h :: rest, seen =>
    if h.name ≠ [] ∧ ¬ seen.contains h.name then
      { h with name := jsTrim h.name } :: dedupeByName rest (h.name :: seen)
    else dedupeByName rest seen

/-! ## RID extraction (part_001 lines 529-532 vs `blast-search/index.ts`
lines 94-108) -/

/-- Browser-side `putText.match(/RID = (.*)/)` capture: everything after
the first `RID = ` up to the end of the line (`.` excludes the JS line
terminators). -/
def extractRidBrowser (text : List Char) : Option (List Char) :=
  match jsIndexOfFrom text ("RID = ".toList) 0 with
  | none => none
  | some i =>
    some ((text.drop (i + 6)).takeWhile
      (fun c => !(c = '\n' || c = '\r' || c = '\u2028' || c = '\u2029')))

/-- Service-side `submitText.match(/RID = ([^\s]+)/)` capture: the first
whitespace-free token after a `RID = ` that is followed by at least one
non-whitespace character. -/
def extractRidService (text : List Char) : Option (List Char) :=
  match (List.range text.length).find? (fun i =>
      matchAtB text ("RID = ".toList) i &&
        (((text.drop (i + 6)).head?.map (fun c => !isJsSpace c)).getD false)) with
  | none => none
  | some i => some ((text.drop (i + 6)).takeWhile (fun c => !isJsSpace c))

/-! ## Helper lemmas -/

theorem jsToUpper_cases (c : Char) : jsToUpper c = c ∨ jsToUpper c ∈ ucLetters := by
  unfold jsToUpper
  split
  all_goals first
    | (right; decide)
    | (left; rfl)

theorem jsToUpper_idem (c : Char) : jsToUpper (jsToUpper c) = jsToUpper c := by
  rcases jsToUpper_cases c with h | h
  · rw [h, h]
  · generalize hu : jsToUpper c = u at h ⊢
    fin_cases h <;> rfl

theorem jsToUpper_not_space_digit (c : Char) (hs : isJsSpace c = false)
    (hd : jsIsDigit c = false) :
    isJsSpace (jsToUpper c) = false ∧ jsIsDigit (jsToUpper c) = false := by
  rcases jsToUpper_cases c with h | h
  · rw [h]; exact ⟨hs, hd⟩
  · generalize hu : jsToUpper c = u at h ⊢
    fin_cases h <;> exact ⟨by decide, by decide⟩

theorem cleanAndValidate_sequence_clean (raw : List Char) :
    ∀ c ∈ (cleanAndValidate raw).sequence,
      isJsSpace c = false ∧ jsIsDigit c = false ∧ jsToUpper c = c := by
  intro c hc
  simp only [cleanAndValidate, List.mem_map, List.mem_filter] at hc
  obtain ⟨d, ⟨_, hd⟩, rfl⟩ := hc
  have hd' : isJsSpace d = false ∧ jsIsDigit d = false := by
    revert hd
    cases isJsSpace d <;> cases jsIsDigit d <;> simp
  obtain ⟨hs, hdg⟩ := hd'
  refine ⟨(jsToUpper_not_space_digit d hs hdg).1,
          (jsToUpper_not_space_digit d hs hdg).2, jsToUpper_idem d⟩

theorem findFirstFrom_some (p : Nat → Bool) (start fuel q : Nat)
    (h : findFirstFrom p start fuel = some q) :
    start ≤ q ∧ p q = true ∧ ∀ j, start ≤ j → j < q → p j = false := by
  induction fuel generalizing start with
  | zero => simp [findFirstFrom] at h
  | succ n ih =>
    rw [findFirstFrom] at h
    by_cases hp : p start
    · rw [if_pos hp] at h
      obtain rfl : start = q := by simpa using h
      exact ⟨le_rfl, hp, fun j h1 h2 => absurd (lt_of_le_of_lt h1 h2) (lt_irrefl _)⟩
    · rw [if_neg hp] at h
      obtain ⟨h1, h2, h3⟩ := ih (start + 1) h
      refine ⟨by omega, h2, fun j hj1 hj2 => ?_⟩
      rcases Nat.eq_or_lt_of_le hj1 with rfl | hlt
      · exact Bool.not_eq_true _ ▸ (by simpa using hp)
      · exact h3 j hlt hj2

theorem findFirstFrom_none (p : Nat → Bool) (start fuel : Nat)
    (h : findFirstFrom p start fuel = none) :
    ∀ j, start ≤ j → j < start + fuel → p j = false := by
  induction fuel generalizing start with
  | zero => omega
  | succ n ih =>
    rw [findFirstFrom] at h
    by_cases hp : p start
    · rw [if_pos hp] at h; cases h
    · rw [if_neg hp] at h
      intro j hj1 hj2
      rcases Nat.eq_or_lt_of_le hj1 with rfl | hlt
      · simpa using hp
      · exact ih (start + 1) h j hlt (by omega)

theorem matchAtB_le (s m : List Char) (i : Nat) (h : matchAtB s m i = true) :
    i ≤ s.length := by
  have := (Bool.and_eq_true _ _).mp h |>.1
  have := of_decide_eq_true this
  omega

theorem jsIndexOfFrom_some (s m : List Char) (start q : Nat)
    (h : jsIndexOfFrom s m start = some q) :
    start ≤ q ∧ matchAtB s m q = true ∧
      ∀ j, start ≤ j → j < q → matchAtB s m j = false :=
  findFirstFrom_some _ _ _ _ h

theorem jsIndexOfFrom_none (s m : List Char) (start : Nat)
    (h : jsIndexOfFrom s m start = none) :
    ∀ j, start ≤ j → matchAtB s m j = false := by
  intro j hj
  by_cases hin : j < start + (s.length + 1 - start)
  · exact findFirstFrom_none _ _ _ h j hj hin
  · by_contra hm
    have := matchAtB_le s m j (by revert hm; cases matchAtB s m j <;> simp)
    omega

/-! ## Claim theorems -/

/-- Claim C1, counterexample: translating `"ATGTTTTAA"` yields the protein
`"MF"`, not `"F"` — the start codon `ATG` itself is translated to `M` and
appended to the protein. -/
theorem translate_ATGTTTTAA_counterexample :
    translateToProtein ("ATGTTTTAA".toList) = some ⟨"MF".toList, true, 0⟩ ∧
      (translateToProtein ("ATGTTTTAA".toList)).map TranslationResult.protein
        ≠ some ("F".toList) := by
  decide

/-- Claim C1, amended: for `"ATGTTTTAA"` translation returns the protein
`"MF"` (start codon emitting `M`, one coding codon, then stop) with the
stop-codon flag set; for `"ATGTTT"` (no stop codon) it returns `"MF"` with
the stop-not-found flag (flag `false`). -/
theorem translate_examples_amended :
    translateToProtein ("ATGTTTTAA".toList) = some ⟨"MF".toList, true, 0⟩ ∧
      translateToProtein ("ATGTTT".toList) = some ⟨"MF".toList, false, 0⟩ := by
  decide

/-- Claim C2, counterexample: `"GGGATG"` does contain `"ATG"` (at 0-based
index 3), so translation does not fail — it yields the protein `"M"`. -/
theorem translate_GGGATG_counterexample :
    translateToProtein ("GGGATG".toList) = some ⟨"M".toList, false, 3⟩ ∧
      translateToProtein ("GGGATG".toList) ≠ none := by
  decide

/-- Claim C2, amended: translation fails with the no-start-codon condition
exactly when `"ATG"` does not occur in the normalized sequence; on
`"GGGATG"` the start codon occurs at index 3 and translation succeeds with
protein `"M"`. -/
theorem translate_no_start_iff :
    (∀ s : List Char,
        translateToProtein s = none ↔ ∀ i, matchAtB s ("ATG".toList) i = false) ∧
      translateToProtein ("GGGATG".toList) = some ⟨"M".toList, false, 3⟩ := by
  refine ⟨fun s => ?_, by decide⟩
  constructor
  · intro h i
    cases heq : jsIndexOfFrom s ("ATG".toList) 0 with
    | none => exact jsIndexOfFrom_none s _ 0 heq i (Nat.zero_le i)
    | some q => rw [translateToProtein, heq] at h; cases h
  · intro h
    cases heq : jsIndexOfFrom s ("ATG".toList) 0 with
    | none => rw [translateToProtein, heq]
    | some q =>
      have := (jsIndexOfFrom_some s _ 0 q heq).2.1
      rw [h q] at this
      cases this

theorem complement_complement_of_base (c : Char) (h : isBase c = true) :
    (complement c).bind complement = some c := by
  have : c = 'A' ∨ c = 'T' ∨ c = 'G' ∨ c = 'C' := by
    revert h
    simp only [isBase, Bool.or_eq_true, decide_eq_true_eq]
    tauto
  rcases this with rfl | rfl | rfl | rfl <;> rfl

theorem reverse_filterMap' (f : Char → Option Char) (l : List Char) :
    (l.filterMap f).reverse = l.reverse.filterMap f := by
  induction l with
  | nil => rfl
  | cons c t ih =>
    rw [List.reverse_cons, List.filterMap_append]
    cases hf : f c with
    | none =>
      rw [List.filterMap_cons_none hf, ih, List.filterMap_cons_none hf,
          List.filterMap_nil, List.append_nil]
    | some b =>
      rw [List.filterMap_cons_some hf, List.reverse_cons, ih,
          List.filterMap_cons_some hf, List.filterMap_nil]

/-- Claim C3: over the alphabet `{A,T,G,C}` the reverse complement is an
involution, and `reverseComplement("ATGC") = "GCAT"`. -/
theorem reverseComplement_involution (s : List Char) (h : ∀ c ∈ s, isBase c = true) :
    generateReverseComplement (generateReverseComplement s) = s ∧
      generateReverseComplement ("ATGC".toList) = "GCAT".toList := by
  refine ⟨?_, by decide⟩
  unfold generateReverseComplement
  rw [reverse_filterMap', List.reverse_reverse, List.filterMap_filterMap]
  induction s with
  | nil => rfl
  | cons c t ih =>
    rw [List.filterMap_cons]
    have hc := complement_complement_of_base c (h c (List.mem_cons_self c t))
    rw [hc]
    rw [ih (fun d hd => h d (List.mem_cons_of_mem c hd))]

/-- Witness for C3 at the concrete sequence `"ATGC"`. -/
theorem reverseComplement_involution_witness :
    (∀ c ∈ ("ATGC".toList), isBase c = true) ∧
      generateReverseComplement (generateReverseComplement ("ATGC".toList))
        = "ATGC".toList :=
  ⟨by decide, (reverseComplement_involution ("ATGC".toList) (by decide)).1⟩

/-- Claim C8: the normalizer output contains no whitespace and no digit and
is upper-case (fixed under upper-casing); it is a total function ("never
throws"); empty input gives the empty sequence with an empty
invalid-character report; and `normalize(">header\nATGC")` drops the
header line. -/
theorem cleanAndValidate_spec :
    (∀ raw : List Char, ∀ c ∈ (cleanAndValidate raw).sequence,
        isJsSpace c = false ∧ jsIsDigit c = false ∧ jsToUpper c = c) ∧
      cleanAndValidate [] = ⟨[], true, []⟩ ∧
      (cleanAndValidate (">header\nATGC".toList)).sequence = "ATGC".toList :=
  ⟨cleanAndValidate_sequence_clean, by decide, by decide⟩

/-- Claim C10: on a submit response whose RID line carries trailing text,
the browser-side extraction keeps the whole rest of the line while the
service-side extraction keeps only the first whitespace-delimited token;
the two extraction functions are not equal. -/
theorem rid_extraction_differs :
    extractRidBrowser ("RID = ABC 123\nRTOE = 5\n".toList) = some ("ABC 123".toList) ∧
      extractRidService ("RID = ABC 123\nRTOE = 5\n".toList) = some ("ABC".toList) ∧
      extractRidBrowser ≠ extractRidService := by
  refine ⟨by decide, by decide, fun h => ?_⟩
  have h1 : extractRidBrowser ("RID = ABC 123\nRTOE = 5\n".toList)
      = some ("ABC 123".toList) := by decide
  have h2 : extractRidService ("RID = ABC 123\nRTOE = 5\n".toList)
      = some ("ABC".toList) := by decide
  rw [h] at h1
  exact (by decide : some ("ABC 123".toList) ≠ some ("ABC".toList)) (h1.symm.trans h2)

theorem count_sum_of_bases (s : List Char) (h : ∀ c ∈ s, isBase c = true) :
    countBase s 'A' + countBase s 'T' + countBase s 'G' + countBase s 'C'
      = s.length := by
  induction s with
  | nil => rfl
  | cons c t ih =>
    have hc : c = 'A' ∨ c = 'T' ∨ c = 'G' ∨ c = 'C' := by
      have := h c (List.mem_cons_self c t)
      revert this
      simp only [isBase, Bool.or_eq_true, decide_eq_true_eq]
      tauto
    have ht := ih (fun d hd => h d (List.mem_cons_of_mem c hd))
    unfold countBase at ht ⊢
    rcases hc with rfl | rfl | rfl | rfl
    · rw [List.count_cons_self, List.count_cons_of_ne (by decide),
        List.count_cons_of_ne (by decide), List.count_cons_of_ne (by decide),
        List.length_cons]
      omega
    · rw [List.count_cons_of_ne (by decide), List.count_cons_self,
        List.count_cons_of_ne (by decide), List.count_cons_of_ne (by decide),
        List.length_cons]
      omega
    · rw [List.count_cons_of_ne (by decide), List.count_cons_of_ne (by decide),
        List.count_cons_self, List.count_cons_of_ne (by decide),
        List.length_cons]
      omega
    · rw [List.count_cons_of_ne (by decide), List.count_cons_of_ne (by decide),
        List.count_cons_of_ne (by decide), List.count_cons_self,
        List.length_cons]
      omega

/-- Claim C4: with no invalid residues, the per-base counts sum to the
sequence length, and the reported GC percentage is
`100 * (countG + countC) / length` rounded to 2 decimal places. -/
theorem composition_stats_spec (s : List Char) (h : ∀ c ∈ s, isBase c = true) :
    countBase s 'A' + countBase s 'T' + countBase s 'G' + countBase s 'C'
        = s.length ∧
      gcPercent s
        = jsToFixed2 (100 * ((countBase s 'G' : ℚ) + (countBase s 'C' : ℚ))
            / s.length) := by
  refine ⟨count_sum_of_bases s h, ?_⟩
  unfold gcPercent
  congr 1
  ring

/-- Witness for C4 at the concrete sequence `"ATGC"`. -/
theorem composition_stats_witness :
    (∀ c ∈ ("ATGC".toList), isBase c = true) ∧
      (countBase ("ATGC".toList) 'A' + countBase ("ATGC".toList) 'T'
            + countBase ("ATGC".toList) 'G' + countBase ("ATGC".toList) 'C'
          = ("ATGC".toList).length ∧
        gcPercent ("ATGC".toList)
          = jsToFixed2 (100 * ((countBase ("ATGC".toList) 'G' : ℚ)
              + (countBase ("ATGC".toList) 'C' : ℚ)) / ("ATGC".toList).length)) :=
  ⟨by decide, composition_stats_spec ("ATGC".toList) (by decide)⟩

theorem window_map_eq (p : List Char) (i : Nat) (h : i + 9 ≤ p.length) :
    (List.range 9).map (fun j => (kyteDoolittleScale (p.getD (i + j) ' ')).getD 0)
      = ((p.drop i).take 9).map (fun c => (kyteDoolittleScale c).getD 0) := by
  apply List.ext_getElem
  · simp only [List.length_map, List.length_range, List.length_take,
      List.length_drop]
    omega
  · intro j hj1 hj2
    simp only [List.getElem_map, List.getElem_range, List.getElem_take,
      List.getElem_drop]
    congr 2
    exact List.getD_eq_getElem p ' ' (by
      simp only [List.length_map, List.length_range] at hj1
      omega)

/-- Claim C5: the hydropathy computation fails exactly when the protein has
fewer than 9 residues; otherwise it yields `length − 8` scores, the `i`-th
being the arithmetic mean of the (defaulted-to-0) Kyte-Doolittle values of
residues `[i, i+9)`. -/
theorem hydropathy_spec (p : List Char) (h9 : 9 ≤ p.length) :
    (∀ q : List Char, hydropathyScores q = none ↔ q.length < 9) ∧
      ∃ scores, hydropathyScores p = some scores ∧
        scores.length = p.length - 8 ∧
        ∀ i, i < p.length - 8 →
          scores.getD i 0
            = (((p.drop i).take 9).map
                (fun c => (kyteDoolittleScale c).getD 0)).sum / 9 := by
  constructor
  · intro q
    unfold hydropathyScores
    by_cases hq : q.length < 9
    · simp [hq]
    · simp [hq]
  · refine ⟨(List.range (p.length - 9 + 1)).map (fun i =>
      (((List.range 9).map
        (fun j => (kyteDoolittleScale (p.getD (i + j) ' ')).getD 0)).sum) / 9),
      ?_, ?_, ?_⟩
    · rw [hydropathyScores, if_neg (by omega)]
    · simp only [List.length_map, List.length_range]
      omega
    · intro i hi
      rw [List.getD_eq_getElem _ _ (by
        simp only [List.length_map, List.length_range]; omega)]
      simp only [List.getElem_map, List.getElem_range]
      rw [window_map_eq p i (by omega)]

/-- Witness for C5 at the nine-residue protein `"AAAAAAAAA"`. -/
theorem hydropathy_spec_witness :
    9 ≤ ("AAAAAAAAA".toList).length ∧
      ((∀ q : List Char, hydropathyScores q = none ↔ q.length < 9) ∧
        ∃ scores, hydropathyScores ("AAAAAAAAA".toList) = some scores ∧
          scores.length = ("AAAAAAAAA".toList).length - 8 ∧
          ∀ i, i < ("AAAAAAAAA".toList).length - 8 →
            scores.getD i 0
              = (((("AAAAAAAAA".toList).drop i).take 9).map
                  (fun c => (kyteDoolittleScale c).getD 0)).sum / 9) :=
  ⟨by decide, hydropathy_spec ("AAAAAAAAA".toList) (by decide)⟩

theorem findMotifLoop_sound (s m : List Char) :
    ∀ fuel start q, q ∈ findMotifLoop s m start fuel →
      ∃ i, q = i + 1 ∧ start ≤ i ∧ matchAtB s m i = true := by
  intro fuel
  induction fuel with
  | zero => intro start q hq; simp [findMotifLoop] at hq
  | succ n ih =>
    intro start q hq
    rw [findMotifLoop] at hq
    cases heq : jsIndexOfFrom s m start with
    | none => rw [heq] at hq; simp at hq
    | some p =>
      rw [heq] at hq
      rcases List.mem_cons.mp hq with rfl | htail
      · obtain ⟨h1, h2, _⟩ := jsIndexOfFrom_some s m start p heq
        exact ⟨p, rfl, h1, h2⟩
      · obtain ⟨i, rfl, hi1, hi2⟩ := ih (p + 1) q htail
        obtain ⟨h1, _, _⟩ := jsIndexOfFrom_some s m start p heq
        exact ⟨i, rfl, by omega, hi2⟩

theorem findMotifLoop_complete (s m : List Char) :
    ∀ fuel start i, matchAtB s m i = true → start ≤ i →
      s.length + 1 - start ≤ fuel → i + 1 ∈ findMotifLoop s m start fuel := by
  intro fuel
  induction fuel with
  | zero =>
    intro start i hm hsi hfuel
    have := matchAtB_le s m i hm
    omega
  | succ n ih =>
    intro start i hm hsi hfuel
    rw [findMotifLoop]
    cases heq : jsIndexOfFrom s m start with
    | none =>
      have := jsIndexOfFrom_none s m start heq i hsi
      rw [hm] at this; cases this
    | some p =>
      obtain ⟨h1, h2, hmin⟩ := jsIndexOfFrom_some s m start p heq
      by_cases hpi : p = i
      · subst hpi; exact List.mem_cons_self _ _
      · have hpi' : p + 1 ≤ i := by
          rcases Nat.lt_or_ge i p with hlt | hge
          · have := hmin i hsi hlt; rw [hm] at this; cases this
          · omega
        exact List.mem_cons_of_mem _ (ih (p + 1) i hm hpi' (by omega))

theorem findMotifLoop_pairwise (s m : List Char) :
    ∀ fuel start, List.Pairwise (· < ·) (findMotifLoop s m start fuel) := by
  intro fuel
  induction fuel with
  | zero => intro start; rw [findMotifLoop]; exact List.Pairwise.nil
  | succ n ih =>
    intro start
    rw [findMotifLoop]
    cases heq : jsIndexOfFrom s m start with
    | none => exact List.Pairwise.nil
    | some p =>
      refine List.pairwise_cons.mpr ⟨fun q hq => ?_, ih (p + 1)⟩
      obtain ⟨i, rfl, hi1, _⟩ := findMotifLoop_sound s m n (p + 1) q hq
      omega

/-- Claim C6: for a non-empty motif, the scanner's result contains exactly
the 1-based start positions of all (possibly overlapping) occurrences, in
strictly increasing order, and `findMotif("AAAA", "AA") = [1, 2, 3]`. -/
theorem findMotifs_spec (s m : List Char) (_hm : m ≠ []) :
    (∀ p, p ∈ findMotifPositions s m ↔ ∃ i, p = i + 1 ∧ matchAtB s m i = true) ∧
      List.Pairwise (· < ·) (findMotifPositions s m) ∧
      findMotifPositions ("AAAA".toList) ("AA".toList) = [1, 2, 3] := by
  refine ⟨fun p => ⟨fun hp => ?_, fun hex => ?_⟩,
    findMotifLoop_pairwise s m (s.length + 1) 0, by decide⟩
  · obtain ⟨i, rfl, _, h2⟩ := findMotifLoop_sound s m (s.length + 1) 0 p hp
    exact ⟨i, rfl, h2⟩
  · obtain ⟨i, rfl, hi⟩ := hex
    exact findMotifLoop_complete s m (s.length + 1) 0 i hi (Nat.zero_le i) (by omega)

/-- Witness for C6 at the concrete scan of `"AA"` in `"AAAA"`. -/
theorem findMotifs_spec_witness :
    ("AA".toList ≠ []) ∧
      ((∀ p, p ∈ findMotifPositions ("AAAA".toList) ("AA".toList) ↔
          ∃ i, p = i + 1 ∧ matchAtB ("AAAA".toList) ("AA".toList) i = true) ∧
        List.Pairwise (· < ·) (findMotifPositions ("AAAA".toList) ("AA".toList)) ∧
        findMotifPositions ("AAAA".toList) ("AA".toList) = [1, 2, 3]) :=
  ⟨by decide, findMotifs_spec ("AAAA".toList) ("AA".toList) (by decide)⟩

theorem findGRNA_mem (t : List Char) (c : GuideCandidate) :
    c ∈ findGRNA t ↔
      ∃ i, 20 ≤ i ∧ i + 2 < t.length ∧ t.getD (i + 1) ' ' = 'G' ∧
        t.getD (i + 2) ' ' = 'G' ∧
        c = ⟨i - 20 + 1, (t.drop (i - 20)).take 20, (t.drop i).take 3⟩ := by
  unfold findGRNA
  simp only [List.mem_filterMap, List.mem_range]
  constructor
  · rintro ⟨i, hi, hf⟩
    by_cases hcond : 20 ≤ i ∧ i + 2 < t.length ∧ t.getD (i + 1) ' ' = 'G' ∧
        t.getD (i + 2) ' ' = 'G'
    · rw [if_pos hcond] at hf
      obtain ⟨h1, h2, h3, h4⟩ := hcond
      exact ⟨i, h1, h2, h3, h4, (Option.some.inj hf).symm⟩
    · rw [if_neg hcond] at hf
      cases hf
  · rintro ⟨i, h1, h2, h3, h4, rfl⟩
    exact ⟨i, by omega, by rw [if_pos ⟨h1, h2, h3, h4⟩]⟩

theorem findGRNA_23 (s : List Char) (h23 : s.length = 23)
    (hg1 : s.getD 21 ' ' = 'G') (hg2 : s.getD 22 ' ' = 'G') :
    findGRNA s = [⟨1, s.take 20, (s.drop 20).take 3⟩] := by
  unfold findGRNA
  rw [h23]
  rw [(by decide :
    List.range 23
      = [0, 1, 2, 3, 4, 5, 6, 7, 8, 9, 10, 11, 12, 13, 14, 15, 16, 17,
         18, 19, 20, 21, 22])]
  norm_num [List.filterMap_cons, List.getD_eq_getElem?_getD] at hg1 hg2 ⊢
  norm_num [List.filterMap_cons, hg1, hg2]

/-- Claim C7: the guide-RNA scanner emits a candidate exactly at each
position with 20 preceding bases whose two following bases are `GG` (the
candidate carrying the 20-base protospacer, the N-G-G PAM window, and the
1-based protospacer start), and a 23-base sequence ending in N-G-G yields
exactly one candidate at position 1. -/
theorem findGRNA_spec (s : List Char) (h23 : s.length = 23)
    (hg1 : s.getD 21 ' ' = 'G') (hg2 : s.getD 22 ' ' = 'G') :
    (∀ (t : List Char) (c : GuideCandidate),
        c ∈ findGRNA t ↔
          ∃ i, 20 ≤ i ∧ i + 2 < t.length ∧ t.getD (i + 1) ' ' = 'G' ∧
            t.getD (i + 2) ' ' = 'G' ∧
            c = ⟨i - 20 + 1, (t.drop (i - 20)).take 20, (t.drop i).take 3⟩) ∧
      findGRNA s = [⟨1, s.take 20, (s.drop 20).take 3⟩] :=
  ⟨fun t c => findGRNA_mem t c, findGRNA_23 s h23 hg1 hg2⟩

/-- Witness for C7 at the concrete 23-base sequence of 20 `A`s and `TGG`. -/
theorem findGRNA_spec_witness :
    ("AAAAAAAAAAAAAAAAAAAATGG".toList).length = 23 ∧
      ("AAAAAAAAAAAAAAAAAAAATGG".toList).getD 21 ' ' = 'G' ∧
      ("AAAAAAAAAAAAAAAAAAAATGG".toList).getD 22 ' ' = 'G' ∧
      findGRNA ("AAAAAAAAAAAAAAAAAAAATGG".toList)
        = [⟨1, ("AAAAAAAAAAAAAAAAAAAATGG".toList).take 20,
            (("AAAAAAAAAAAAAAAAAAAATGG".toList).drop 20).take 3⟩] :=
  ⟨by decide, by decide, by decide,
    (findGRNA_spec ("AAAAAAAAAAAAAAAAAAAATGG".toList)
      (by decide) (by decide) (by decide)).2⟩

theorem renderLoop_eq (chunks : List (List Char)) :
    ∀ seen acc, acc.length ≤ 3 →
      renderLoop chunks seen acc
        = acc.reverse
            ++ (dedupeByName (chunks.filterMap parseChunk) seen).take
                (3 - acc.length) := by
  induction chunks with
  | nil =>
    intro seen acc _
    simp [renderLoop, dedupeByName]
  | cons chunk rest ih =>
    intro seen acc hlen
    rw [renderLoop]
    by_cases h3 : 3 ≤ acc.length
    · rw [if_pos h3]
      have h33 : acc.length = 3 := le_antisymm hlen h3
      rw [h33]
      simp
    · rw [if_neg h3]
      cases hpc : parseChunk chunk with
      | none =>
        rw [List.filterMap_cons_none hpc]
        simp only [hpc]
        exact ih seen acc hlen
      | some h =>
        rw [List.filterMap_cons_some hpc]
        simp only [hpc]
        rw [dedupeByName]
        by_cases hcond : h.name ≠ [] ∧ ¬ seen.contains h.name
        · rw [if_pos hcond, if_pos hcond]
          obtain ⟨k, hk⟩ : ∃ k, 3 - acc.length = k + 1 := ⟨2 - acc.length, by omega⟩
          rw [ih (h.name :: seen) ({ h with name := jsTrim h.name } :: acc)
            (by simp only [List.length_cons]; omega)]
          rw [hk, List.take_succ_cons, List.reverse_cons, List.append_assoc,
            List.singleton_append, List.length_cons]
          have hk' : 3 - (acc.length + 1) = k := by omega
          rw [hk']
        · rw [if_neg hcond, if_neg hcond]
          exact ih seen acc hlen

/-- Claim C9: the result-parsing loop is equivalent to deduplicating all
parsed hits by derived display name (first-occurrence order) and keeping
the first 3; in particular it never yields more than 3 hits. -/
theorem parseBlastResults_spec :
    ∀ resultText : List Char,
      parseBlastResults resultText
          = (dedupeByName (allHits resultText) []).take 3 ∧
        (parseBlastResults resultText).length ≤ 3 := by
  intro txt
  have h := renderLoop_eq ((splitOnChar '>' txt).drop 1) [] [] (by simp)
  have h' : parseBlastResults txt = (dedupeByName (allHits txt) []).take 3 := by
    simpa [parseBlastResults, allHits] using h
  refine ⟨h', ?_⟩
  rw [h']
  exact (List.length_take 3 _).trans_le (min_le_left _ _)
